import Mathlib

/-!
Shallow embedding of the geospatial metadata reconciliation core of the
zarr-cloud-native-format repository: CRS resolution, grid-geometry
reconstruction, extent aggregation, band-descriptor building, and the
spec-described cube-metadata synchronizer and catalog composer.
Numeric coordinates are modelled as rationals, datetimes as integers,
and Python runtime failures as an explicit error type.
-/

namespace ZarrCNF

/-- Python-level runtime errors raised by the reconciliation helpers:
a ValueError with its message, or a TypeError from an unsupported
comparison (e.g. comparing None with a datetime inside min or max). -/
inductive PyErr where
  | valueError (msg : String)
  | typeError
deriving DecidableEq

instance {ε α : Type} [DecidableEq ε] [DecidableEq α] : DecidableEq (Except ε α) := fun x y =>
  match x, y with
  | .ok a, .ok b =>
      if h : a = b then .isTrue (by rw [h]) else .isFalse (fun hh => by cases hh; exact h rfl)
  | .error a, .error b =>
      if h : a = b then .isTrue (by rw [h]) else .isFalse (fun hh => by cases hh; exact h rfl)
  | .ok _, .error _ => .isFalse (fun hh => by cases hh)
  | .error _, .ok _ => .isFalse (fun hh => by cases hh)

/-- The projection metadata fields of a STAC item's properties mapping that
the CRS resolver reads: the legacy numeric field "proj:epsg" and the modern
string field "proj:code"; absence of the key is modelled as none. -/
structure ItemProps where
  epsg : Option Int
  code : Option String
deriving DecidableEq

/-- Python truthiness of an optional integer: None and 0 are falsy. -/
def truthyInt : Option Int → Bool
  | none => false
  | some n => n != 0

/-- Python's str.upper for the ASCII identifiers handled here. -/
def pyToUpper (s : String) : String := String.mk (s.data.map Char.toUpper)

/-- Python's str.lower for the ASCII identifiers handled here. -/
def pyToLower (s : String) : String := String.mk (s.data.map Char.toLower)

/-- Python's s.startswith(pre). -/
def pyStartsWith (s pre : String) : Bool := pre.data.isPrefixOf s.data

/-- Embedding of extract_crs from stac-zarr/app.py (identical in
stac-eopf-product/app.py): return "epsg:<n>" when the legacy field is
truthy, else the lower-cased modern code when it starts with the
case-insensitive prefix "EPSG:", else raise ValueError. -/
def extract_crs (p : ItemProps) : Except PyErr String :=
  if truthyInt p.epsg then
    .ok ("epsg:" ++ toString (p.epsg.getD 0))
  else
    match p.code with
    | some code =>
        if code != "" && pyStartsWith (pyToUpper code) "EPSG:" then
          .ok (pyToLower code)
        else
          .error (.valueError "CRS not found in item properties")
    | none => .error (.valueError "CRS not found in item properties")

/-- The proj:bbox list [xmin, ymin, xmax, ymax] of an item or asset. -/
structure Bbox where
  xmin : ℚ
  ymin : ℚ
  xmax : ℚ
  ymax : ℚ
deriving DecidableEq

/-- The fields of a STAC item that extent aggregation reads: item.bbox
(a possibly missing bounding box) and item.datetime (possibly None). -/
structure Item where
  bbox : Option Bbox
  datetime : Option Int
deriving DecidableEq

/-- Embedding of get_spatial_extent from stac-zarr/app.py: filter out the
items whose bbox is falsy, raise ValueError when none remain, and return
the componentwise min/min/max/max of the remaining boxes. -/
def get_spatial_extent (items : List Item) : Except PyErr (List ℚ) :=
  match items.filterMap (fun i => i.bbox) with
  | [] => .error (.valueError "No bbox found in item properties")
  | b :: bs =>
      .ok [ (bs.map Bbox.xmin).foldl min b.xmin,
            (bs.map Bbox.ymin).foldl min b.ymin,
            (bs.map Bbox.xmax).foldl max b.xmax,
            (bs.map Bbox.ymax).foldl max b.ymax ]

/-- Python's comparison a < b on optional datetimes: defined only when both
operands are actual datetimes, a TypeError otherwise. -/
def pyLt (a b : Option Int) : Except PyErr Bool :=
  match a, b with
  | some x, some y => .ok (decide (x < y))
  | _, _ => .error .typeError

/-- The loop of Python's min builtin: keep the current best, replacing it
whenever the next element compares strictly below it. -/
def pyMinGo (best : Option Int) : List (Option Int) → Except PyErr (Option Int)
  | [] => .ok best
  | x :: xs =>
      match pyLt x best with
      | .error e => .error e
      | .ok b => pyMinGo (if b then x else best) xs

/-- Python's min over a list of optional datetimes. -/
def pyMin : List (Option Int) → Except PyErr (Option Int)
  | [] => .error (.valueError "min() arg is an empty sequence")
  | x :: xs => pyMinGo x xs

/-- The loop of Python's max builtin. -/
def pyMaxGo (best : Option Int) : List (Option Int) → Except PyErr (Option Int)
  | [] => .ok best
  | x :: xs =>
      match pyLt best x with
      | .error e => .error e
      | .ok b => pyMaxGo (if b then x else best) xs

/-- Python's max over a list of optional datetimes. -/
def pyMax : List (Option Int) → Except PyErr (Option Int)
  | [] => .error (.valueError "max() arg is an empty sequence")
  | x :: xs => pyMaxGo x xs

/-- Embedding of get_temporal_extent from stac-zarr/app.py: collect every
item's datetime without filtering, raise ValueError on an empty list, and
return [min(times), max(times)] using Python's min/max semantics. -/
def get_temporal_extent (items : List Item) : Except PyErr (List (Option Int)) :=
  let times := items.map (fun i => i.datetime)
  if times.isEmpty then
    .error (.valueError "No datetime found in item properties")
  else
    match pyMin times with
    | .error e => .error e
    | .ok mn =>
        match pyMax times with
        | .error e => .error e
        | .ok mx => .ok [mn, mx]

/-- A six-coefficient affine transform in the rasterio argument order
Affine(a, b, c, d, e, f), mapping pixel (col, row) to world
(a*col + b*row + c, d*col + e*row + f). -/
structure Affine where
  a : ℚ
  b : ℚ
  c : ℚ
  d : ℚ
  e : ℚ
  f : ℚ
deriving DecidableEq

/-- Embedding of affine_from_stac_asset from occurrence/occurrence/app.py:
from proj:bbox and proj:shape = (height, width), compute per-axis
resolutions and return the north-up pixel-registered transform whose
origin is the upper-left corner (xmin, ymax). -/
def affine_from_stac_asset (bbox : Bbox) (shape : ℚ × ℚ) : Affine :=
  let height := shape.1
  let width := shape.2
  let xres := (bbox.xmax - bbox.xmin) / width
  let yres := (bbox.ymax - bbox.ymin) / height
  ⟨xres, 0, bbox.xmin, 0, -yres, bbox.ymax⟩

/-- Application of an affine transform to a pixel coordinate (col, row),
following the GridGeometry invariant x = a*col + b*row + c,
y = d*col + e*row + f. -/
def affine_apply (t : Affine) (col row : ℚ) : ℚ × ℚ :=
  (t.a * col + t.b * row + t.c, t.d * col + t.e * row + t.f)

/-- The raster-extension band data types recognised by the dtype table,
with an explicit catch-all. -/
inductive DataType where
  | int8 | int16 | int32 | int64
  | uint8 | uint16 | uint32 | uint64
  | float16 | float32 | float64
  | other
deriving DecidableEq

/-- Embedding of the DTYPE_TO_RASTER module table of
stac-eopf-product/app.py, keyed by canonical numpy dtype name. -/
def DTYPE_TO_RASTER : List (String × DataType) :=
  [ ("int8", .int8), ("int16", .int16), ("int32", .int32), ("int64", .int64),
    ("uint8", .uint8), ("uint16", .uint16), ("uint32", .uint32), ("uint64", .uint64),
    ("float16", .float16), ("float32", .float32), ("float64", .float64) ]

/-- Embedding of to_raster_datatype: table lookup with DataType.OTHER as
the default for any dtype absent from the table. -/
def to_raster_datatype (dtype : String) : DataType :=
  (DTYPE_TO_RASTER.lookup dtype).getD .other

/-- Python truthiness of an optional number: None, 0 and 0.0 are falsy. -/
def truthyNum : Option ℚ → Bool
  | none => false
  | some q => q != 0

/-- Python's `a or b` on optional numbers: the left operand when truthy,
otherwise the right operand. -/
def pyOr (a b : Option ℚ) : Option ℚ :=
  if truthyNum a then a else b

/-- The metadata of an xarray DataArray read by the band builder: the
relevant keys of the encoding and attrs mappings, the dtype name, and the
optional resolution obtained from the rio accessor when available. -/
structure DataArrayMeta where
  encFillValue : Option ℚ
  encScaleFactor : Option ℚ
  encAddOffset : Option ℚ
  attrFillValue : Option ℚ
  attrScaleFactor : Option ℚ
  attrAddOffset : Option ℚ
  attrNodata : Option ℚ
  attrUnits : Option String
  dtype : String
  rioResolution : Option ℚ
deriving DecidableEq

/-- A standardized band descriptor as built by RasterBand.create. -/
structure RasterBand where
  data_type : DataType
  nodata : Option ℚ
  scale : Option ℚ
  offset : Option ℚ
  unit : Option String
  spatial_resolution : Option ℚ
deriving DecidableEq

/-- Embedding of raster_band_from_dataarray from stac-eopf-product/app.py:
nodata, scale and offset are each computed with Python `or` chains over
encoding and attrs (so a falsy stored value such as 0 is skipped), the
unit is read from attrs, and the spatial resolution comes from the rio
accessor when present. -/
def raster_band_from_dataarray (da : DataArrayMeta) : RasterBand :=
  { data_type := to_raster_datatype da.dtype
    nodata := pyOr da.encFillValue (pyOr da.attrFillValue da.attrNodata)
    scale := pyOr da.encScaleFactor da.attrScaleFactor
    offset := pyOr da.encAddOffset da.attrAddOffset
    unit := da.attrUnits
    spatial_resolution := da.rioResolution }

/-- Error kind of the spec-modelled cube metadata synchronizer. -/
inductive SyncErr where
  | danglingDimensionReference (dim : String)
deriving DecidableEq

/-- A dimension descriptor: spatial axes carry an extent and a reference
system, the temporal axis carries only an extent. -/
inductive DimensionDescriptor where
  | spatial (axis : String) (lo hi : ℚ) (reference_system : String)
  | temporal (lo hi : ℚ)
deriving DecidableEq

/-- A variable descriptor: the ordered dimension names it spans. -/
structure VariableDescriptor where
  dimensions : List String
deriving DecidableEq

/-- The datacube descriptor: keyed dimension and variable descriptors plus
the resolved CRS. -/
structure CubeDescriptor where
  dimensions : List (String × DimensionDescriptor)
  vars : List (String × VariableDescriptor)
  crs : String
deriving DecidableEq

/-- Minimum of a coordinate vector (0 on an empty vector). -/
def listMinQ : List ℚ → ℚ
  | [] => 0
  | x :: xs => xs.foldl min x

/-- Maximum of a coordinate vector (0 on an empty vector). -/
def listMaxQ : List ℚ → ℚ
  | [] => 0
  | x :: xs => xs.foldl max x

/-- Build the dimension descriptor of one dataset axis: the axes named
"x" and "y" are spatial, carry [min(coords), max(coords)] and the resolved
CRS; any other axis is temporal with extent [min(coords), max(coords)]. -/
def mkDim (crs : String) (name : String) (coords : List ℚ) : DimensionDescriptor :=
  if name = "x" || name = "y" then
    .spatial name (listMinQ coords) (listMaxQ coords) crs
  else
    .temporal (listMinQ coords) (listMaxQ coords)

/-- First dimension name referenced by some declared variable that is not
among the dataset's dimension names, if any. -/
def findDangling (dimNames : List String) : List (String × List String) → Option String
  | [] => none
  | (_, ds) :: rest =>
      match ds.find? (fun d => !(dimNames.contains d)) with
      | some d => some d
      | none => findDangling dimNames rest

/-- Modelled from the spec: the Cube Metadata Synchronizer of section 4.5
is not a standalone function in the source (the pipelines inline hardcoded
dimension/variable dictionaries), so it is modelled from the spec's words:
for each dataset axis build a DimensionDescriptor (spatial axes "x"/"y"
get extent [min(coords), max(coords)] and the resolved crs, the temporal
axis gets its coordinate extent), and for each declared variable validate
that every referenced dimension name exists among the dataset dimensions,
failing with DanglingDimensionReference otherwise. -/
def synchronize (dataset_dims : List (String × List ℚ))
    (declared_variables : List (String × List String))
    (crs : String) : Except SyncErr CubeDescriptor :=
  match findDangling (dataset_dims.map Prod.fst) declared_variables with
  | some d => .error (.danglingDimensionReference d)
  | none =>
      .ok { dimensions := dataset_dims.map (fun p => (p.1, mkDim crs p.1 p.2))
            vars := declared_variables.map (fun p => (p.1, ⟨p.2⟩))
            crs := crs }

/-- Error kind of the spec-modelled catalog descriptor composer. -/
inductive ComposeErr where
  | crsMismatch
deriving DecidableEq

/-- A collection-level extent descriptor: spatial bbox, temporal interval
and the CRS it independently carries. -/
structure ExtentDescriptor where
  bbox : List ℚ
  interval : List Int
  crs : String
deriving DecidableEq

/-- The composed catalog descriptor: collection extent, cube descriptor
and asset records referencing external store locations. -/
structure CatalogDescriptor where
  extent : ExtentDescriptor
  cube : CubeDescriptor
  assets : List (String × String)
deriving DecidableEq

/-- Modelled from the spec: the Catalog Descriptor Composer of section 4.6
is not a standalone function in the source (the pipelines inline the
collection assembly), so it is modelled from the spec's words: pure
assembly that fails only when the cube's declared reference system
disagrees with the CRS independently carried in the extent. -/
def compose (extent : ExtentDescriptor) (cube : CubeDescriptor)
    (assets : List (String × String)) : Except ComposeErr CatalogDescriptor :=
  if cube.crs = extent.crs then
    .ok ⟨extent, cube, assets⟩
  else
    .error .crsMismatch

/-- The reference system carried by a dimension descriptor, if any. -/
def dimCrs : DimensionDescriptor → Option String
  | .spatial _ _ _ rs => some rs
  | .temporal _ _ => none

/-- Every CRS occurrence embedded in a catalog descriptor: the extent's,
the cube's, and each spatial dimension's reference system. -/
def crsList (d : CatalogDescriptor) : List String :=
  d.extent.crs :: d.cube.crs :: d.cube.dimensions.filterMap (fun p => dimCrs p.2)

section FoldOrder

variable {α : Type} [LinearOrder α]

/-- Left fold of min with a seed, the value computed by Python's min. -/
def minFold (x : α) (xs : List α) : α := xs.foldl min x

/-- Left fold of max with a seed, the value computed by Python's max. -/
def maxFold (x : α) (xs : List α) : α := xs.foldl max x

theorem minFold_cons (x y : α) (ys : List α) :
    minFold x (y :: ys) = minFold (min x y) ys := rfl

theorem maxFold_cons (x y : α) (ys : List α) :
    maxFold x (y :: ys) = maxFold (max x y) ys := rfl

theorem minFold_mem : ∀ (xs : List α) (x : α), minFold x xs ∈ x :: xs
  | [], x => by simp [minFold]
  | y :: ys, x => by
      rw [minFold_cons]
      have h := minFold_mem ys (min x y)
      simp only [List.mem_cons] at h ⊢
      rcases h with h | h
      · rcases min_choice x y with hc | hc
        · exact Or.inl (h.trans hc)
        · exact Or.inr (Or.inl (h.trans hc))
      · exact Or.inr (Or.inr h)

theorem maxFold_mem : ∀ (xs : List α) (x : α), maxFold x xs ∈ x :: xs
  | [], x => by simp [maxFold]
  | y :: ys, x => by
      rw [maxFold_cons]
      have h := maxFold_mem ys (max x y)
      simp only [List.mem_cons] at h ⊢
      rcases h with h | h
      · rcases max_choice x y with hc | hc
        · exact Or.inl (h.trans hc)
        · exact Or.inr (Or.inl (h.trans hc))
      · exact Or.inr (Or.inr h)

theorem minFold_le : ∀ (xs : List α) (x : α), ∀ y ∈ x :: xs, minFold x xs ≤ y
  | [], x => by simp [minFold]
  | z :: zs, x => by
      intro y hy
      rw [minFold_cons]
      have h := minFold_le zs (min x z)
      simp only [List.mem_cons] at hy
      rcases hy with h1 | h1 | h1
      · rw [h1]; exact le_trans (h _ (List.mem_cons_self _ _)) (min_le_left _ _)
      · rw [h1]; exact le_trans (h _ (List.mem_cons_self _ _)) (min_le_right _ _)
      · exact h y (List.mem_cons_of_mem _ h1)

theorem le_maxFold : ∀ (xs : List α) (x : α), ∀ y ∈ x :: xs, y ≤ maxFold x xs
  | [], x => by simp [maxFold]
  | z :: zs, x => by
      intro y hy
      rw [maxFold_cons]
      have h := le_maxFold zs (max x z)
      simp only [List.mem_cons] at hy
      rcases hy with h1 | h1 | h1
      · rw [h1]; exact le_trans (le_max_left _ _) (h _ (List.mem_cons_self _ _))
      · rw [h1]; exact le_trans (le_max_right _ _) (h _ (List.mem_cons_self _ _))
      · exact h y (List.mem_cons_of_mem _ h1)

theorem minFold_perm {x y : α} {xs ys : List α} (h : (x :: xs).Perm (y :: ys)) :
    minFold x xs = minFold y ys := by
  apply le_antisymm
  · exact minFold_le xs x _ (h.symm.subset (minFold_mem ys y))
  · exact minFold_le ys y _ (h.subset (minFold_mem xs x))

theorem maxFold_perm {x y : α} {xs ys : List α} (h : (x :: xs).Perm (y :: ys)) :
    maxFold x xs = maxFold y ys := by
  apply le_antisymm
  · exact le_maxFold ys y _ (h.subset (maxFold_mem xs x))
  · exact le_maxFold xs x _ (h.symm.subset (maxFold_mem ys y))

end FoldOrder

theorem pyMinGo_map_some (b : ℤ) (xs : List ℤ) :
    pyMinGo (some b) (xs.map some) = .ok (some (minFold b xs)) := by
  induction xs generalizing b with
  | nil => rfl
  | cons y ys ih =>
      have hb : (if y < b then (some y : Option ℤ) else some b) = some (min b y) := by
        rcases lt_or_ge y b with h | h
        · simp [h, min_eq_right h.le]
        · simp [not_lt.mpr h, min_eq_left h]
      simp only [List.map_cons, pyMinGo, pyLt, decide_eq_true_eq]
      rw [hb, ih, minFold_cons]

theorem pyMaxGo_map_some (b : ℤ) (xs : List ℤ) :
    pyMaxGo (some b) (xs.map some) = .ok (some (maxFold b xs)) := by
  induction xs generalizing b with
  | nil => rfl
  | cons y ys ih =>
      have hb : (if b < y then (some y : Option ℤ) else some b) = some (max b y) := by
        rcases lt_or_ge b y with h | h
        · simp [h, max_eq_right h.le]
        · simp [not_lt.mpr h, max_eq_left h]
      simp only [List.map_cons, pyMaxGo, pyLt, decide_eq_true_eq]
      rw [hb, ih, maxFold_cons]

theorem pyMinGo_none_head (x : Option ℤ) (xs : List (Option ℤ)) :
    pyMinGo none (x :: xs) = .error .typeError := by
  cases x <;> rfl

theorem pyMaxGo_none_head (x : Option ℤ) (xs : List (Option ℤ)) :
    pyMaxGo none (x :: xs) = .error .typeError := by
  cases x <;> rfl

theorem pyMinGo_mem_none : ∀ (xs : List (Option ℤ)) (best : Option ℤ), none ∈ xs →
    pyMinGo best xs = .error .typeError
  | [], _, h => absurd h (List.not_mem_nil _)
  | x :: rest, best, h => by
      cases x with
      | none => cases best <;> rfl
      | some a =>
          have hrest : none ∈ rest := by
            rcases List.mem_cons.mp h with h1 | h1
            · exact absurd h1 (by simp)
            · exact h1
          cases best with
          | none => rfl
          | some b =>
              have hh := pyMinGo_mem_none rest (if a < b then some a else some b) hrest
              simpa [pyMinGo, pyLt] using hh

theorem pyMaxGo_mem_none : ∀ (xs : List (Option ℤ)) (best : Option ℤ), none ∈ xs →
    pyMaxGo best xs = .error .typeError
  | [], _, h => absurd h (List.not_mem_nil _)
  | x :: rest, best, h => by
      cases x with
      | none => cases best <;> rfl
      | some a =>
          have hrest : none ∈ rest := by
            rcases List.mem_cons.mp h with h1 | h1
            · exact absurd h1 (by simp)
            · exact h1
          cases best with
          | none => rfl
          | some b =>
              have hh := pyMaxGo_mem_none rest (if b < a then some a else some b) hrest
              simpa [pyMaxGo, pyLt] using hh

theorem pyMin_mem_none (x y : Option ℤ) (rest : List (Option ℤ))
    (hn : none ∈ x :: y :: rest) : pyMin (x :: y :: rest) = .error .typeError := by
  cases x with
  | none => exact pyMinGo_none_head y rest
  | some a =>
      have : none ∈ y :: rest := by
        rcases List.mem_cons.mp hn with h1 | h1
        · exact absurd h1 (by simp)
        · exact h1
      exact pyMinGo_mem_none _ _ this

theorem pyMax_mem_none (x y : Option ℤ) (rest : List (Option ℤ))
    (hn : none ∈ x :: y :: rest) : pyMax (x :: y :: rest) = .error .typeError := by
  cases x with
  | none => exact pyMaxGo_none_head y rest
  | some a =>
      have : none ∈ y :: rest := by
        rcases List.mem_cons.mp hn with h1 | h1
        · exact absurd h1 (by simp)
        · exact h1
      exact pyMaxGo_mem_none _ _ this

theorem eq_map_some_of_not_mem_none : ∀ (l : List (Option ℤ)), none ∉ l →
    l = (l.filterMap id).map some
  | [], _ => rfl
  | x :: xs, h => by
      cases x with
      | none => exact absurd (List.mem_cons_self _ _) h
      | some a =>
          have hx : none ∉ xs := fun hh => h (List.mem_cons_of_mem _ hh)
          have ih := eq_map_some_of_not_mem_none xs hx
          simp only [List.filterMap_cons, id, List.map_cons]
          exact congrArg (some a :: ·) ih

theorem pyMin_perm : ∀ {l1 l2 : List (Option ℤ)}, l1.Perm l2 → pyMin l1 = pyMin l2 := by
  intro l1 l2 h
  cases l1 with
  | nil => rw [h.nil_eq.symm]
  | cons x xs =>
      cases l2 with
      | nil => exact absurd h.symm.nil_eq (by simp)
      | cons y ys =>
          by_cases hn : none ∈ x :: xs
          · cases xs with
            | nil =>
                have hy : ys = [] := by
                  have := h.length_eq
                  simpa using this.symm
                subst hy
                have hxy : x = y := by
                  have := h.subset (List.mem_cons_self x [])
                  simpa using this
                rw [hxy]
            | cons x2 xs2 =>
                have hys : ∃ y2 ys2, ys = y2 :: ys2 := by
                  cases ys with
                  | nil => exact absurd h.length_eq (by simp)
                  | cons y2 ys2 => exact ⟨y2, ys2, rfl⟩
                obtain ⟨y2, ys2, rfl⟩ := hys
                rw [pyMin_mem_none x x2 xs2 hn,
                    pyMin_mem_none y y2 ys2 (h.subset hn)]
          · have hn2 : none ∉ y :: ys := fun hh => hn (h.symm.subset hh)
            obtain ⟨a, rfl⟩ : ∃ a, x = some a := by
              cases x with
              | none => exact absurd (List.mem_cons_self _ _) hn
              | some a => exact ⟨a, rfl⟩
            obtain ⟨b, rfl⟩ : ∃ b, y = some b := by
              cases y with
              | none => exact absurd (List.mem_cons_self _ _) hn2
              | some b => exact ⟨b, rfl⟩
            have hxs : none ∉ xs := fun hh => hn (List.mem_cons_of_mem _ hh)
            have hys : none ∉ ys := fun hh => hn2 (List.mem_cons_of_mem _ hh)
            have hp : (a :: xs.filterMap id).Perm (b :: ys.filterMap id) := by
              have hfm := h.filterMap id
              simpa using hfm
            calc pyMin (some a :: xs)
                = pyMin (some a :: (xs.filterMap id).map some) := by
                  rw [← eq_map_some_of_not_mem_none xs hxs]
              _ = .ok (some (minFold a (xs.filterMap id))) := pyMinGo_map_some _ _
              _ = .ok (some (minFold b (ys.filterMap id))) := by rw [minFold_perm hp]
              _ = pyMin (some b :: (ys.filterMap id).map some) := (pyMinGo_map_some _ _).symm
              _ = pyMin (some b :: ys) := by
                  rw [← eq_map_some_of_not_mem_none ys hys]

theorem pyMax_perm : ∀ {l1 l2 : List (Option ℤ)}, l1.Perm l2 → pyMax l1 = pyMax l2 := by
  intro l1 l2 h
  cases l1 with
  | nil => rw [h.nil_eq.symm]
  | cons x xs =>
      cases l2 with
      | nil => exact absurd h.symm.nil_eq (by simp)
      | cons y ys =>
          by_cases hn : none ∈ x :: xs
          · cases xs with
            | nil =>
                have hy : ys = [] := by
                  have := h.length_eq
                  simpa using this.symm
                subst hy
                have hxy : x = y := by
                  have := h.subset (List.mem_cons_self x [])
                  simpa using this
                rw [hxy]
            | cons x2 xs2 =>
                have hys : ∃ y2 ys2, ys = y2 :: ys2 := by
                  cases ys with
                  | nil => exact absurd h.length_eq (by simp)
                  | cons y2 ys2 => exact ⟨y2, ys2, rfl⟩
                obtain ⟨y2, ys2, rfl⟩ := hys
                rw [pyMax_mem_none x x2 xs2 hn,
                    pyMax_mem_none y y2 ys2 (h.subset hn)]
          · have hn2 : none ∉ y :: ys := fun hh => hn (h.symm.subset hh)
            obtain ⟨a, rfl⟩ : ∃ a, x = some a := by
              cases x with
              | none => exact absurd (List.mem_cons_self _ _) hn
              | some a => exact ⟨a, rfl⟩
            obtain ⟨b, rfl⟩ : ∃ b, y = some b := by
              cases y with
              | none => exact absurd (List.mem_cons_self _ _) hn2
              | some b => exact ⟨b, rfl⟩
            have hxs : none ∉ xs := fun hh => hn (List.mem_cons_of_mem _ hh)
            have hys : none ∉ ys := fun hh => hn2 (List.mem_cons_of_mem _ hh)
            have hp : (a :: xs.filterMap id).Perm (b :: ys.filterMap id) := by
              have hfm := h.filterMap id
              simpa using hfm
            calc pyMax (some a :: xs)
                = pyMax (some a :: (xs.filterMap id).map some) := by
                  rw [← eq_map_some_of_not_mem_none xs hxs]
              _ = .ok (some (maxFold a (xs.filterMap id))) := pyMaxGo_map_some _ _
              _ = .ok (some (maxFold b (ys.filterMap id))) := by rw [maxFold_perm hp]
              _ = pyMax (some b :: (ys.filterMap id).map some) := (pyMaxGo_map_some _ _).symm
              _ = pyMax (some b :: ys) := by
                  rw [← eq_map_some_of_not_mem_none ys hys]

theorem pyMin_cons (x : Option ℤ) (xs : List (Option ℤ)) : pyMin (x :: xs) = pyMinGo x xs := rfl

theorem pyMax_cons (x : Option ℤ) (xs : List (Option ℤ)) : pyMax (x :: xs) = pyMaxGo x xs := rfl

/-- C1: CRS resolution precedence: a truthy legacy "proj:epsg" value n is
wrapped as "epsg:n"; otherwise a "proj:code" value carrying the
case-insensitive prefix "EPSG:" is returned lower-cased; otherwise
resolution fails with the missing-CRS ValueError. -/
theorem extract_crs_resolution (p : ItemProps) :
    (∀ n : Int, p.epsg = some n → n ≠ 0 →
      extract_crs p = .ok ("epsg:" ++ toString n)) ∧
    (truthyInt p.epsg = false → ∀ s : String, p.code = some s →
      pyStartsWith (pyToUpper s) "EPSG:" = true → extract_crs p = .ok (pyToLower s)) ∧
    (truthyInt p.epsg = false →
      (∀ s : String, p.code = some s → pyStartsWith (pyToUpper s) "EPSG:" = false) →
      extract_crs p = .error (.valueError "CRS not found in item properties")) := by
  refine ⟨?_, ?_, ?_⟩
  · intro n hn hnz
    simp [extract_crs, truthyInt, hn, bne_iff_ne, hnz]
  · intro hf s hs hpre
    have hne : s ≠ "" := by
      intro h0
      rw [h0] at hpre
      exact absurd hpre (by decide)
    simp [extract_crs, hf, hs, hpre, hne, bne_iff_ne]
  · intro hf hno
    cases hc : p.code with
    | none => simp [extract_crs, hf, hc]
    | some s =>
        have hpre := hno s hc
        simp [extract_crs, hf, hc, hpre]

/-- C1 witness: the scenario resolve({"proj:epsg": 32633}) = "epsg:32633". -/
theorem extract_crs_resolution_witness :
    extract_crs ⟨some 32633, none⟩ = .ok "epsg:32633" :=
  ((extract_crs_resolution ⟨some 32633, none⟩).1 32633 rfl (by decide)).trans (by decide)

/-- C10: a falsy legacy "proj:epsg" value such as 0 is treated as if the
field were absent: resolution behaves exactly like resolution without the
legacy field, and when "proj:code" is also absent or not EPSG-prefixed it
fails with the missing-CRS error instead of returning "epsg:0". -/
theorem extract_crs_falsy_epsg (p : ItemProps) (h : p.epsg = some 0) :
    extract_crs p = extract_crs ⟨none, p.code⟩ ∧
    ((∀ s : String, p.code = some s → pyStartsWith (pyToUpper s) "EPSG:" = false) →
      extract_crs p = .error (.valueError "CRS not found in item properties") ∧
      extract_crs p ≠ .ok "epsg:0") := by
  have hf : truthyInt p.epsg = false := by rw [h]; rfl
  have hf2 : truthyInt (none : Option Int) = false := rfl
  constructor
  · simp only [extract_crs, hf, hf2, Bool.false_eq_true, if_false]
  · intro hno
    have he := (extract_crs_resolution p).2.2 hf hno
    refine ⟨he, ?_⟩
    rw [he]
    intro hcontra
    cases hcontra

/-- C10 witness: with proj:epsg = 0 and no proj:code, resolution fails
with the missing-CRS error. -/
theorem extract_crs_falsy_epsg_witness :
    extract_crs ⟨some 0, none⟩ = .error (.valueError "CRS not found in item properties") :=
  ((extract_crs_falsy_epsg ⟨some 0, none⟩ rfl).2 (fun _ hs => nomatch hs)).1

/-- C2: with rows > 0 and cols > 0, grid-geometry reconstruction returns
the affine coefficients [xres, 0, xmin, 0, -yres, ymax] with
xres = (xmax - xmin)/cols and yres = (ymax - ymin)/rows. -/
theorem affine_from_stac_asset_coeffs (xmin ymin xmax ymax rows cols : ℚ)
    (hr : 0 < rows) (hc : 0 < cols) :
    affine_from_stac_asset ⟨xmin, ymin, xmax, ymax⟩ (rows, cols) =
      ⟨(xmax - xmin) / cols, 0, xmin, 0, -((ymax - ymin) / rows), ymax⟩ := rfl

/-- C2 witness: bbox (0,0,100,50) with shape (rows=50, cols=100) yields
the affine [1, 0, 0, 0, -1, 50]. -/
theorem affine_from_stac_asset_coeffs_witness :
    affine_from_stac_asset ⟨0, 0, 100, 50⟩ (50, 100) = ⟨1, 0, 0, 0, -1, 50⟩ :=
  (affine_from_stac_asset_coeffs 0 0 100 50 50 100 (by norm_num) (by norm_num)).trans
    (by norm_num [Affine.mk.injEq])

/-- C8: the reconstructed affine maps pixel (0,0) to the world corner
(xmin, ymax) and pixel (cols, rows) to (xmax, ymin). -/
theorem affine_from_stac_asset_roundtrip (xmin ymin xmax ymax rows cols : ℚ)
    (hr : 0 < rows) (hc : 0 < cols) :
    affine_apply (affine_from_stac_asset ⟨xmin, ymin, xmax, ymax⟩ (rows, cols)) 0 0 =
      (xmin, ymax) ∧
    affine_apply (affine_from_stac_asset ⟨xmin, ymin, xmax, ymax⟩ (rows, cols)) cols rows =
      (xmax, ymin) := by
  have hr0 : rows ≠ 0 := ne_of_gt hr
  have hc0 : cols ≠ 0 := ne_of_gt hc
  constructor
  · simp [affine_apply, affine_from_stac_asset]
  · simp only [affine_apply, affine_from_stac_asset, Prod.mk.injEq]
    constructor
    · field_simp
    · field_simp

/-- C8 witness: the corner round-trip at bbox (0,0,100,50) with
shape (50, 100): pixel (100, 50) maps to world (100, 0). -/
theorem affine_from_stac_asset_roundtrip_witness :
    affine_apply (affine_from_stac_asset ⟨0, 0, 100, 50⟩ (50, 100)) 100 50 = (100, 0) :=
  (affine_from_stac_asset_roundtrip 0 0 100 50 50 100 (by norm_num) (by norm_num)).2

/-- C4: contrary to the claim, the band builder's truthiness-based
fallback chains skip an explicitly stored 0: with encoding
_FillValue = 0, scale_factor = 0 and add_offset = 0 the built band
records the attribute-level fallbacks (-9999, 2, 3) instead of 0. -/
theorem raster_band_truthiness_bug :
    (raster_band_from_dataarray
        ⟨some 0, some 0, some 0, none, some 2, some 3, some (-9999), none, "uint8", none⟩).nodata =
      some (-9999) ∧
    (raster_band_from_dataarray
        ⟨some 0, some 0, some 0, none, some 2, some 3, some (-9999), none, "uint8", none⟩).scale =
      some 2 ∧
    (raster_band_from_dataarray
        ⟨some 0, some 0, some 0, none, some 2, some 3, some (-9999), none, "uint8", none⟩).offset =
      some 3 := by
  refine ⟨?_, ?_, ?_⟩ <;> decide

/-- The xmin of an item's bbox (0 when the bbox is absent). -/
def bbXmin (i : Item) : ℚ := (i.bbox.getD ⟨0, 0, 0, 0⟩).xmin

/-- The ymin of an item's bbox (0 when the bbox is absent). -/
def bbYmin (i : Item) : ℚ := (i.bbox.getD ⟨0, 0, 0, 0⟩).ymin

/-- The xmax of an item's bbox (0 when the bbox is absent). -/
def bbXmax (i : Item) : ℚ := (i.bbox.getD ⟨0, 0, 0, 0⟩).xmax

/-- The ymax of an item's bbox (0 when the bbox is absent). -/
def bbYmax (i : Item) : ℚ := (i.bbox.getD ⟨0, 0, 0, 0⟩).ymax

/-- The datetime of an item (0 when absent). -/
def itemTime (i : Item) : ℤ := i.datetime.getD 0

theorem filterMap_bbox_of_all_some : ∀ (l : List Item), (∀ j ∈ l, j.bbox.isSome) →
    l.filterMap (fun j => j.bbox) = l.map (fun j => j.bbox.getD ⟨0, 0, 0, 0⟩)
  | [], _ => rfl
  | i :: rest, h => by
      have hi : i.bbox.isSome := h i (List.mem_cons_self _ _)
      have hrest := filterMap_bbox_of_all_some rest (fun j hj => h j (List.mem_cons_of_mem _ hj))
      cases hb : i.bbox with
      | none => rw [hb] at hi; cases hi
      | some b =>
          simp only [List.filterMap_cons, hb, List.map_cons, Option.getD_some]
          exact congrArg (b :: ·) hrest

theorem map_datetime_of_all_some : ∀ (l : List Item), (∀ j ∈ l, j.datetime.isSome) →
    l.map (fun j => j.datetime) = (l.map itemTime).map some
  | [], _ => rfl
  | i :: rest, h => by
      have hi : i.datetime.isSome := h i (List.mem_cons_self _ _)
      have hrest := map_datetime_of_all_some rest (fun j hj => h j (List.mem_cons_of_mem _ hj))
      cases ht : i.datetime with
      | none => rw [ht] at hi; cases hi
      | some t =>
          simp only [List.map_cons, itemTime, ht, Option.getD_some]
          exact congrArg (some t :: ·) hrest

/-- C3: for a non-empty sequence of items all carrying a bbox and a
datetime, aggregation returns the componentwise min/min/max/max of the
bboxes and the [min, max] interval of the datetimes. -/
theorem extent_aggregation_of_complete_items (i : Item) (its : List Item)
    (hb : ∀ j ∈ i :: its, j.bbox.isSome) (hd : ∀ j ∈ i :: its, j.datetime.isSome) :
    get_spatial_extent (i :: its) =
      .ok [minFold (bbXmin i) (its.map bbXmin), minFold (bbYmin i) (its.map bbYmin),
           maxFold (bbXmax i) (its.map bbXmax), maxFold (bbYmax i) (its.map bbYmax)] ∧
    get_temporal_extent (i :: its) =
      .ok [some (minFold (itemTime i) (its.map itemTime)),
           some (maxFold (itemTime i) (its.map itemTime))] := by
  constructor
  · have hfm := filterMap_bbox_of_all_some (i :: its) hb
    simp only [List.map_cons] at hfm
    unfold get_spatial_extent
    rw [hfm]
    simp only [List.map_map]
    rw [show Bbox.xmin ∘ (fun j : Item => j.bbox.getD ⟨0, 0, 0, 0⟩) = bbXmin from rfl,
        show Bbox.ymin ∘ (fun j : Item => j.bbox.getD ⟨0, 0, 0, 0⟩) = bbYmin from rfl,
        show Bbox.xmax ∘ (fun j : Item => j.bbox.getD ⟨0, 0, 0, 0⟩) = bbXmax from rfl,
        show Bbox.ymax ∘ (fun j : Item => j.bbox.getD ⟨0, 0, 0, 0⟩) = bbYmax from rfl]
    rfl
  · have hmap := map_datetime_of_all_some (i :: its) hd
    simp only [List.map_cons] at hmap
    unfold get_temporal_extent
    simp only [List.map_cons, hmap, List.isEmpty_cons, Bool.false_eq_true, if_false,
               pyMin_cons, pyMax_cons, pyMinGo_map_some, pyMaxGo_map_some]

/-- C3 witness: the scenario with bboxes (0,0,10,10) and (5,5,20,20) and
times 1 < 2 aggregates to bbox (0,0,20,20) and interval (1, 2). -/
theorem extent_aggregation_of_complete_items_witness :
    get_spatial_extent
        [⟨some ⟨0, 0, 10, 10⟩, some 1⟩, ⟨some ⟨5, 5, 20, 20⟩, some 2⟩] =
      .ok [0, 0, 20, 20] ∧
    get_temporal_extent
        [⟨some ⟨0, 0, 10, 10⟩, some 1⟩, ⟨some ⟨5, 5, 20, 20⟩, some 2⟩] =
      .ok [some 1, some 2] := by
  have h := extent_aggregation_of_complete_items ⟨some ⟨0, 0, 10, 10⟩, some 1⟩
    [⟨some ⟨5, 5, 20, 20⟩, some 2⟩] (by decide) (by decide)
  exact ⟨h.1.trans (by decide), h.2.trans (by decide)⟩

theorem foldl_min_perm {α : Type} [LinearOrder α] {x y : α} {xs ys : List α}
    (h : (x :: xs).Perm (y :: ys)) : xs.foldl min x = ys.foldl min y := minFold_perm h

theorem foldl_max_perm {α : Type} [LinearOrder α] {x y : α} {xs ys : List α}
    (h : (x :: xs).Perm (y :: ys)) : xs.foldl max x = ys.foldl max y := maxFold_perm h

/-- C9: extent aggregation is invariant under permutation of the input
items: both the spatial and the temporal aggregate (result or error)
depend only on the multiset of items. -/
theorem extent_aggregation_perm (l1 l2 : List Item) (h : l1.Perm l2) :
    get_spatial_extent l1 = get_spatial_extent l2 ∧
    get_temporal_extent l1 = get_temporal_extent l2 := by
  constructor
  · have hp : (l1.filterMap (fun i => i.bbox)).Perm (l2.filterMap (fun i => i.bbox)) :=
      h.filterMap _
    unfold get_spatial_extent
    rcases e1 : l1.filterMap (fun i => i.bbox) with _ | ⟨b, bs⟩ <;>
      rcases e2 : l2.filterMap (fun i => i.bbox) with _ | ⟨c, cs⟩ <;>
      simp only [e1, e2] at hp ⊢
    · exact absurd hp.nil_eq (by simp)
    · exact absurd hp.symm.nil_eq (by simp)
    · have h1 : (b.xmin :: bs.map Bbox.xmin).Perm (c.xmin :: cs.map Bbox.xmin) := by
        simpa using hp.map Bbox.xmin
      have h2 : (b.ymin :: bs.map Bbox.ymin).Perm (c.ymin :: cs.map Bbox.ymin) := by
        simpa using hp.map Bbox.ymin
      have h3 : (b.xmax :: bs.map Bbox.xmax).Perm (c.xmax :: cs.map Bbox.xmax) := by
        simpa using hp.map Bbox.xmax
      have h4 : (b.ymax :: bs.map Bbox.ymax).Perm (c.ymax :: cs.map Bbox.ymax) := by
        simpa using hp.map Bbox.ymax
      rw [foldl_min_perm h1, foldl_min_perm h2, foldl_max_perm h3, foldl_max_perm h4]
  · cases l1 with
    | nil => rw [← h.nil_eq]
    | cons a as =>
        cases l2 with
        | nil => exact absurd h.symm.nil_eq (by simp)
        | cons b bs =>
            have hm : (a.datetime :: as.map (fun i => i.datetime)).Perm
                (b.datetime :: bs.map (fun i => i.datetime)) := by
              simpa using h.map (fun i => i.datetime)
            unfold get_temporal_extent
            simp only [List.map_cons, List.isEmpty_cons, Bool.false_eq_true, if_false,
                       pyMin_cons, pyMax_cons]
            rw [show pyMinGo a.datetime (as.map (fun i => i.datetime)) =
                  pyMinGo b.datetime (bs.map (fun i => i.datetime)) from pyMin_perm hm,
                show pyMaxGo a.datetime (as.map (fun i => i.datetime)) =
                  pyMaxGo b.datetime (bs.map (fun i => i.datetime)) from pyMax_perm hm]

/-- C9 witness: swapping the two items of a concrete sequence leaves both
aggregates unchanged. -/
theorem extent_aggregation_perm_witness :
    get_spatial_extent
        [⟨some ⟨0, 0, 10, 10⟩, some 5⟩, ⟨some ⟨5, 5, 20, 20⟩, some 7⟩] =
      get_spatial_extent
        [⟨some ⟨5, 5, 20, 20⟩, some 7⟩, ⟨some ⟨0, 0, 10, 10⟩, some 5⟩] ∧
    get_temporal_extent
        [⟨some ⟨0, 0, 10, 10⟩, some 5⟩, ⟨some ⟨5, 5, 20, 20⟩, some 7⟩] =
      get_temporal_extent
        [⟨some ⟨5, 5, 20, 20⟩, some 7⟩, ⟨some ⟨0, 0, 10, 10⟩, some 5⟩] :=
  extent_aggregation_perm _ _ (List.Perm.swap _ _ _)

/-- C5 counterexample: two items both carrying bboxes, the first with a
datetime and the second without; the claim says aggregation succeeds, but
temporal aggregation raises a TypeError because the None datetime is not
filtered out before min() compares it. -/
theorem extent_aggregation_mixed_none_counterexample :
    get_temporal_extent
        [(⟨some ⟨0, 0, 10, 10⟩, some 1⟩ : Item), ⟨some ⟨5, 5, 20, 20⟩, none⟩] =
      .error .typeError := by decide

theorem filterMap_bbox_filter : ∀ (l : List Item),
    (l.filter (fun j => j.bbox.isSome)).filterMap (fun j => j.bbox) =
      l.filterMap (fun j => j.bbox)
  | [] => rfl
  | i :: rest => by
      have ih := filterMap_bbox_filter rest
      cases hb : i.bbox with
      | none =>
          simp only [List.filter_cons, hb, Option.isSome_none, Bool.false_eq_true, if_false,
                     List.filterMap_cons, ih]
      | some b =>
          simp only [List.filter_cons, hb, Option.isSome_some, if_true,
                     List.filterMap_cons, ih]

theorem pyMinGo_ok_or_typeError :
    ∀ (xs : List (Option ℤ)) (best : Option ℤ),
      (∃ v, pyMinGo best xs = .ok v) ∨ pyMinGo best xs = .error .typeError
  | [], best => Or.inl ⟨best, rfl⟩
  | x :: rest, best => by
      cases x with
      | none =>
          cases best <;> exact Or.inr rfl
      | some a =>
          cases best with
          | none => exact Or.inr rfl
          | some b =>
              have hrec := pyMinGo_ok_or_typeError rest
                (if a < b then some a else some b)
              simpa [pyMinGo, pyLt] using hrec

theorem pyMaxGo_ok_or_typeError :
    ∀ (xs : List (Option ℤ)) (best : Option ℤ),
      (∃ v, pyMaxGo best xs = .ok v) ∨ pyMaxGo best xs = .error .typeError
  | [], best => Or.inl ⟨best, rfl⟩
  | x :: rest, best => by
      cases x with
      | none =>
          cases best <;> exact Or.inr rfl
      | some a =>
          cases best with
          | none => exact Or.inr rfl
          | some b =>
              have hrec := pyMaxGo_ok_or_typeError rest
                (if b < a then some a else some b)
              simpa [pyMaxGo, pyLt] using hrec

/-- C5 amended: bbox-less items are silently excluded from the spatial
aggregate, which fails with the empty-set ValueError exactly when no item
carries a bbox; temporal aggregation is not symmetric: it fails with its
empty-set ValueError exactly on an empty sequence (and never on a
non-empty one), a missing datetime among two or more items raises a
TypeError, and a single datetime-less item yields the degenerate
interval [None, None]. -/
theorem extent_aggregation_missing_fields (items : List Item) :
    get_spatial_extent items = get_spatial_extent (items.filter (fun j => j.bbox.isSome)) ∧
    (get_spatial_extent items = .error (.valueError "No bbox found in item properties") ↔
      ∀ j ∈ items, j.bbox = none) ∧
    (get_temporal_extent items = .error (.valueError "No datetime found in item properties") ↔
      items = []) ∧
    (2 ≤ items.length → (∃ j ∈ items, j.datetime = none) →
      get_temporal_extent items = .error .typeError) ∧
    (∀ j : Item, items = [j] → j.datetime = none →
      get_temporal_extent items = .ok [none, none]) := by
  refine ⟨?_, ?_, ?_, ?_, ?_⟩
  · unfold get_spatial_extent
    rw [filterMap_bbox_filter]
  · constructor
    · intro hE
      rcases e : items.filterMap (fun j => j.bbox) with _ | ⟨b, bs⟩
      · exact List.filterMap_eq_nil_iff.mp e
      · unfold get_spatial_extent at hE
        rw [e] at hE
        exact Except.noConfusion hE
    · intro hall
      have e : items.filterMap (fun j => j.bbox) = [] :=
        List.filterMap_eq_nil_iff.mpr hall
      unfold get_spatial_extent
      rw [e]
  · constructor
    · intro hE
      cases items with
      | nil => rfl
      | cons a rest =>
          exfalso
          unfold get_temporal_extent at hE
          simp only [List.map_cons, List.isEmpty_cons, Bool.false_eq_true, if_false,
                     pyMin_cons, pyMax_cons] at hE
          rcases pyMinGo_ok_or_typeError (rest.map (fun i => i.datetime)) a.datetime with
            ⟨v, hv⟩ | hv
          · simp only [hv] at hE
            rcases pyMaxGo_ok_or_typeError (rest.map (fun i => i.datetime)) a.datetime with
              ⟨w, hw⟩ | hw
            · simp only [hw] at hE
              exact Except.noConfusion hE
            · simp only [hw] at hE
              have hInj : PyErr.typeError = PyErr.valueError "No datetime found in item properties" := by
                injection hE
              exact PyErr.noConfusion hInj
          · simp only [hv] at hE
            have hInj : PyErr.typeError = PyErr.valueError "No datetime found in item properties" := by
              injection hE
            exact PyErr.noConfusion hInj
    · intro he
      subst he
      rfl
  · intro hlen hex
    rcases items with _ | ⟨a, rest⟩
    · simp at hlen
    rcases rest with _ | ⟨b, rest2⟩
    · simp at hlen
    obtain ⟨j, hj, hjd⟩ := hex
    have hmem : (none : Option ℤ) ∈ (a :: b :: rest2).map (fun i => i.datetime) := by
      have hmm := List.mem_map_of_mem (fun i : Item => i.datetime) hj
      simp only at hmm
      rwa [hjd] at hmm
    rw [List.map_cons, List.map_cons] at hmem
    have hpm : pyMin (a.datetime :: b.datetime :: rest2.map (fun i => i.datetime)) =
        .error .typeError := pyMin_mem_none _ _ _ hmem
    unfold get_temporal_extent
    simp only [List.map_cons, List.isEmpty_cons, Bool.false_eq_true, if_false, pyMin_cons]
    rw [show pyMinGo a.datetime (b.datetime :: rest2.map (fun i => i.datetime)) =
          .error .typeError from hpm]
  · intro j hj hjd
    subst hj
    simp [get_temporal_extent, hjd, pyMin, pyMinGo, pyMax, pyMaxGo]

/-- C5 witness: a lone item carrying a bbox but no datetime: spatial
aggregation succeeds while temporal aggregation returns the degenerate
interval [None, None]. -/
theorem extent_aggregation_missing_fields_witness :
    get_temporal_extent [(⟨some ⟨1, 2, 3, 4⟩, none⟩ : Item)] = .ok [none, none] :=
  (extent_aggregation_missing_fields [⟨some ⟨1, 2, 3, 4⟩, none⟩]).2.2.2.2
    ⟨some ⟨1, 2, 3, 4⟩, none⟩ rfl rfl

theorem findDangling_isSome :
    ∀ (vars : List (String × List String)) (names : List String)
      (v : String × List String), v ∈ vars → ∀ d ∈ v.2, d ∉ names →
      ∃ d', findDangling names vars = some d'
  | [], _, v, hv, _, _, _ => absurd hv (List.not_mem_nil _)
  | ⟨wn, wds⟩ :: rest, names, v, hv, d, hd, hmiss => by
      simp only [findDangling]
      rcases e : wds.find? (fun x => !(names.contains x)) with _ | d2
      · rcases List.mem_cons.mp hv with h1 | h1
        · have hw := List.find?_eq_none.mp e d (by rw [h1] at hd; exact hd)
          have : names.contains d = true := by
            simpa using hw
          exact absurd (List.elem_iff.mp this) hmiss
        · exact findDangling_isSome rest names v h1 d hd hmiss
      · exact ⟨d2, rfl⟩

/-- C6: cube-metadata synchronization fails with a
DanglingDimensionReference error whenever some declared variable
references a dimension name absent from the dataset dimensions. -/
theorem synchronize_dangling (dims : List (String × List ℚ))
    (vars : List (String × List String)) (crs : String)
    (v : String × List String) (hv : v ∈ vars) (d : String) (hd : d ∈ v.2)
    (hmiss : d ∉ dims.map Prod.fst) :
    ∃ d', synchronize dims vars crs = .error (.danglingDimensionReference d') := by
  obtain ⟨d', hd'⟩ := findDangling_isSome vars (dims.map Prod.fst) v hv d hd hmiss
  refine ⟨d', ?_⟩
  unfold synchronize
  rw [hd']

/-- C6 witness: dims {x, y} with variable "data" over ["x","y","time"]
(after removing "time" from the dataset dimensions) is a
DanglingDimensionReference error. -/
theorem synchronize_dangling_witness :
    ∃ d', synchronize [("x", [0, 100]), ("y", [0, 50])]
        [("data", ["x", "y", "time"])] "epsg:4326" =
      .error (.danglingDimensionReference d') :=
  synchronize_dangling [("x", [0, 100]), ("y", [0, 50])]
    [("data", ["x", "y", "time"])] "epsg:4326"
    ("data", ["x", "y", "time"]) (List.mem_cons_self _ _)
    "time" (by decide) (by decide)

theorem synchronize_crs_consistent (dims : List (String × List ℚ))
    (vars : List (String × List String)) (crs : String) (cube : CubeDescriptor)
    (h : synchronize dims vars crs = .ok cube) :
    cube.crs = crs ∧
    ∀ p ∈ cube.dimensions, ∀ rs, dimCrs p.2 = some rs → rs = crs := by
  unfold synchronize at h
  rcases e : findDangling (dims.map Prod.fst) vars with _ | d
  · rw [e] at h
    cases h
    refine ⟨rfl, ?_⟩
    intro p hp rs hrs
    obtain ⟨q, _, hq⟩ := List.mem_map.mp hp
    rw [← hq] at hrs
    simp only [mkDim] at hrs
    by_cases hxy : (q.1 = "x" || q.1 = "y") = true
    · rw [if_pos hxy] at hrs
      simp only [dimCrs] at hrs
      exact (Option.some.inj hrs).symm
    · rw [if_neg hxy] at hrs
      simp only [dimCrs] at hrs
      exact Option.noConfusion hrs
  · rw [e] at h
    exact Except.noConfusion h

/-- C7: for a cube produced by synchronization, catalog composition
succeeds exactly when the cube's declared reference system agrees with
the CRS carried in the extent, and every CRS embedded in a successfully
composed catalog descriptor equals that single CRS. -/
theorem compose_single_crs (e : ExtentDescriptor) (assets : List (String × String))
    (dims : List (String × List ℚ)) (vars : List (String × List String))
    (crs : String) (cube : CubeDescriptor)
    (hsync : synchronize dims vars crs = .ok cube) :
    ((∃ d, compose e cube assets = .ok d) ↔ cube.crs = e.crs) ∧
    (∀ d, compose e cube assets = .ok d → ∀ s ∈ crsList d, s = e.crs) := by
  have hw := synchronize_crs_consistent dims vars crs cube hsync
  constructor
  · constructor
    · rintro ⟨d, hd⟩
      by_contra hne
      unfold compose at hd
      rw [if_neg hne] at hd
      exact Except.noConfusion hd
    · intro hcrs
      exact ⟨⟨e, cube, assets⟩, by unfold compose; rw [if_pos hcrs]⟩
  · intro d hd s hs
    unfold compose at hd
    by_cases hcrs : cube.crs = e.crs
    · rw [if_pos hcrs] at hd
      cases hd
      simp only [crsList, List.mem_cons] at hs
      rcases hs with h1 | h1 | h1
      · rw [h1]
      · rw [h1]; exact hcrs
      · obtain ⟨p, hp, hps⟩ := List.mem_filterMap.mp h1
        rw [hw.2 p hp s hps, ← hw.1]
        exact hcrs
    · rw [if_neg hcrs] at hd
      exact Except.noConfusion hd

/-- C7 witness: a concrete synchronized cube over dimension x composes
with a matching-CRS extent into a catalog descriptor. -/
theorem compose_single_crs_witness :
    ∃ d, compose ⟨[0, 0, 100, 50], [1, 2], "epsg:4326"⟩
        ⟨[("x", .spatial "x" 0 100 "epsg:4326")], [], "epsg:4326"⟩
        [("data", "result.zarr")] = .ok d :=
  (compose_single_crs ⟨[0, 0, 100, 50], [1, 2], "epsg:4326"⟩ [("data", "result.zarr")]
      [("x", [0, 100])] [] "epsg:4326"
      ⟨[("x", .spatial "x" 0 100 "epsg:4326")], [], "epsg:4326"⟩ (by decide)).1.mpr rfl

end ZarrCNF
